import Mathlib

/-
  Shallow embedding of the adaptive density-controlled Gaussian-splat trainer
  of the brush repository.

  Two trainer variants exist in the source:
  - crates/brush-train/src/train.rs  (`SplatTrainer::step`, `prune_points`, ...)
  - src/train.rs                     (legacy `SplatTrainer::densify_and_prune`, ...)
  Both are embedded below; definitions from the legacy file carry an `old_`
  name component.

  Scalars are modelled as rationals.  The external real-valued functions used
  by the trainer (f32 exp, log, sigmoid, sqrt, all supplied by the burn
  library) are passed in as an explicit `NumOps` record, so that theorems can
  be stated for any interpretation of those functions and evaluated on simple
  concrete ones.
-/

unseal Rat.add Rat.sub Rat.mul Rat.inv

structure Vec3 where
  x : ℚ
  y : ℚ
  z : ℚ
deriving DecidableEq

structure Vec2 where
  x : ℚ
  y : ℚ
deriving DecidableEq

structure Quat where
  w : ℚ
  x : ℚ
  y : ℚ
  z : ℚ
deriving DecidableEq

def vadd (a b : Vec3) : Vec3 := ⟨a.x + b.x, a.y + b.y, a.z + b.z⟩

def vsub (a b : Vec3) : Vec3 := ⟨a.x - b.x, a.y - b.y, a.z - b.z⟩

def vmul (a b : Vec3) : Vec3 := ⟨a.x * b.x, a.y * b.y, a.z * b.z⟩

def vdiv (a : Vec3) (c : ℚ) : Vec3 := ⟨a.x / c, a.y / c, a.z / c⟩

/-- The external numeric primitives (f32 `exp`, `log`, `sigmoid`, `sqrt`
supplied by burn); the embedding is parametric in them. -/
structure NumOps where
  exp : ℚ → ℚ
  log : ℚ → ℚ
  sigmoid : ℚ → ℚ
  sqrt : ℚ → ℚ

/-- A trivial interpretation of the numeric primitives, used to evaluate the
embedding on concrete inputs. -/
def idOps : NumOps := ⟨id, id, id, id⟩

def vexp (ops : NumOps) (v : Vec3) : Vec3 := ⟨ops.exp v.x, ops.exp v.y, ops.exp v.z⟩

def vlog (ops : NumOps) (v : Vec3) : Vec3 := ⟨ops.log v.x, ops.log v.y, ops.log v.z⟩

/-- `log_scales.exp().max_dim(1)`: elementwise exp, then the maximum over the
three axes of one row. -/
def maxScale (ops : NumOps) (v : Vec3) : ℚ := max (ops.exp v.x) (max (ops.exp v.y) (ops.exp v.z))

/-- `Tensor::select(0, inds)`: gather the rows listed in `inds`
(out-of-range indices are dropped; the source only gathers in-range rows). -/
def selectL {α : Type} (xs : List α) (inds : List ℕ) : List α :=
  inds.filterMap (fun i => xs.get? i)

/-- `Tensor::argwhere` on a boolean mask: the indices of the true entries, in
increasing order. -/
def maskInds : List Bool → List ℕ
  | [] => []
  | b :: m => if b then 0 :: (maskInds m).map Nat.succ else (maskInds m).map Nat.succ

/-- `mask.bool_not().argwhere()`: the indices of the false entries. -/
def keepInds (m : List Bool) : List ℕ := maskInds (m.map (fun b => !b))

/-- The rows of `xs` whose mask bit is false, in their original order. -/
def keepRows {α : Type} : List α → List Bool → List α
  | [], _ => []
  | _, [] => []
  | x :: xs, b :: m => if b then keepRows xs m else x :: keepRows xs m

/-- crates/brush-train/src/train.rs:184-198: a mask shorter than the point
count is extended with `false` entries. -/
def padMask (m : List Bool) (n : ℕ) : List Bool :=
  if m.length < n then m ++ List.replicate (n - m.length) false else m

/-- The Point Set: parallel per-point arrays (gaussian_splats `Splats`). -/
structure Splats where
  means : List Vec3
  sh_coeffs : List (List ℚ)
  rotation : List Quat
  raw_opacity : List ℚ
  log_scales : List Vec3
deriving DecidableEq

def Splats.num_splats (s : Splats) : ℕ := s.means.length

/-- Gather the same row list from every Point-Set array. -/
def Splats.selectRows (s : Splats) (inds : List ℕ) : Splats :=
  ⟨selectL s.means inds, selectL s.sh_coeffs inds, selectL s.rotation inds,
   selectL s.raw_opacity inds, selectL s.log_scales inds⟩

/-- Modelled from the spec: `Splats::concat_splats` lives in the brush-render
crate, which is not under src/.  Spec §4.4: "`concatenate(point_set,
new_rows)`: appends new rows to every Point-Set array (statistics arrays are
intentionally *not* extended here)". -/
def Splats.concat_splats (s : Splats) (new_means : List Vec3) (new_rots : List Quat)
    (new_coeffs : List (List ℚ)) (new_opac : List ℚ) (new_scales : List Vec3) : Splats :=
  ⟨s.means ++ new_means, s.sh_coeffs ++ new_coeffs, s.rotation ++ new_rots,
   s.raw_opacity ++ new_opac, s.log_scales ++ new_scales⟩

/-- All Point-Set arrays have one common length. -/
def Splats.uniform (s : Splats) : Prop :=
  s.sh_coeffs.length = s.means.length ∧ s.rotation.length = s.means.length ∧
    s.raw_opacity.length = s.means.length ∧ s.log_scales.length = s.means.length

/-- The brush-train trainer state: the Point Set plus the two
gradient-statistics arrays (crates/brush-train/src/train.rs:95-111). -/
structure TrainerState where
  splats : Splats
  grad_2d_accum : List ℚ
  xy_grad_counts : List ℕ
deriving DecidableEq

/-- All Point-Set arrays and both statistics arrays have one common length. -/
def TrainerState.uniform (st : TrainerState) : Prop :=
  st.splats.uniform ∧ st.grad_2d_accum.length = st.splats.num_splats ∧
    st.xy_grad_counts.length = st.splats.num_splats

/-- The configuration fields of `TrainConfig` consumed by the refinement logic
(crates/brush-train/src/train.rs:18-85). -/
structure TrainConfig where
  warmup_steps : ℕ
  refine_every : ℕ
  cull_alpha_thresh : ℚ
  cull_scale_thresh : ℚ
  reset_alpha_every : ℕ
  densify_grad_thresh : ℚ
  densify_size_thresh : ℚ
deriving DecidableEq

/-- `SplatTrainer::prune_points` (crates/brush-train/src/train.rs:174-226).
An empty mask returns immediately; a short mask is padded with `false`; the
survivors are the rows at the complementary keep-index list, gathered from all
five Point-Set arrays and both statistics arrays.  Pruning every point makes
burn panic (the TODO at line 175); that fatal outcome is the `none` case. -/
def prune_points (st : TrainerState) (prune : List Bool) : Option TrainerState :=
  if prune.length = 0 then some st
  else
    let padded := padMask prune st.splats.num_splats
    let valid_inds := keepInds padded
    let start_splats := st.splats.num_splats
    let new_points := valid_inds.length
    if new_points < start_splats then
      if new_points = 0 then none
      else some { splats := st.splats.selectRows valid_inds,
                  grad_2d_accum := selectL st.grad_2d_accum valid_inds,
                  xy_grad_counts := selectL st.xy_grad_counts valid_inds }
    else some st

/-- `SplatTrainer::reset_opacity` (crates/brush-train/src/train.rs:164-168):
overwrite every raw opacity with `zeros_like + cull_alpha_thresh * 2.0`. -/
def reset_opacity (cfg : TrainConfig) (st : TrainerState) : TrainerState :=
  { st with splats :=
      { st.splats with raw_opacity :=
          st.splats.raw_opacity.map (fun _ => cfg.cull_alpha_thresh * 2) } }

/-- `SplatTrainer::reset_stats` (crates/brush-train/src/train.rs:159-162). -/
def reset_stats (st : TrainerState) : TrainerState :=
  { st with grad_2d_accum := List.replicate st.splats.num_splats 0,
            xy_grad_counts := List.replicate st.splats.num_splats 0 }

/-- Line 364-365: `sigmoid(raw_opacity).lower_elem(cull_alpha_thresh)`. -/
def alphaMask (ops : NumOps) (cfg : TrainConfig) (s : Splats) : List Bool :=
  s.raw_opacity.map (fun o => decide (ops.sigmoid o < cfg.cull_alpha_thresh))

/-- Lines 369-375: `log_scales.exp().max_dim(1).greater_elem(cull_scale_thresh)`. -/
def scaleMask (ops : NumOps) (cfg : TrainConfig) (s : Splats) : List Bool :=
  s.log_scales.map (fun v => decide (cfg.cull_scale_thresh < maxScale ops v))

/-- Lines 378-379: the per-point average observed gradient,
`grad_2d_accum / xy_grad_counts.clamp_min(1)`. -/
def avgGrads (st : TrainerState) : List ℚ :=
  List.zipWith (fun a c => a / ((max c 1 : ℕ) : ℚ)) st.grad_2d_accum st.xy_grad_counts

/-- Line 381: `grads.greater_equal_elem(densify_grad_thresh)`. -/
def bigGradMask (cfg : TrainConfig) (st : TrainerState) : List Bool :=
  (avgGrads st).map (fun g => decide (cfg.densify_grad_thresh ≤ g))

/-- Lines 383-389: `log_scales.exp().max_dim(1).lower_elem(densify_size_thresh)`. -/
def sizeSmallMask (ops : NumOps) (cfg : TrainConfig) (s : Splats) : List Bool :=
  s.log_scales.map (fun v => decide (maxScale ops v < cfg.densify_size_thresh))

/-- Lines 391-396: clone candidates are small AND high-gradient. -/
def cloneMask (ops : NumOps) (cfg : TrainConfig) (st : TrainerState) : List Bool :=
  List.zipWith (fun sm bg => sm && bg) (sizeSmallMask ops cfg st.splats) (bigGradMask cfg st)

/-- Lines 398-401: split candidates are NOT small AND high-gradient. -/
def splitMask (ops : NumOps) (cfg : TrainConfig) (st : TrainerState) : List Bool :=
  List.zipWith (fun sm bg => (!sm) && bg) (sizeSmallMask ops cfg st.splats) (bigGradMask cfg st)

/-- Lines 403-414: gather the clone rows and append them verbatim to every
Point-Set array (statistics arrays are untouched). -/
def clone_step (ops : NumOps) (cfg : TrainConfig) (st : TrainerState) : TrainerState :=
  let inds := maskInds (cloneMask ops cfg st)
  if 0 < inds.length then
    { st with splats := (st.splats.concat_splats
        (selectL st.splats.means inds) (selectL st.splats.rotation inds)
        (selectL st.splats.sh_coeffs inds) (selectL st.splats.raw_opacity inds)
        (selectL st.splats.log_scales inds)) }
  else st

/-- `quaternion_rotation` (crates/brush-train/src/train.rs:113-136). -/
def quaternion_rotation (quats : List Quat) (vectors : List Vec3) : List Vec3 :=
  List.zipWith (fun q v =>
    ⟨q.w * v.x + q.y * v.z - q.z * v.y,
     q.w * v.y - q.x * v.z + q.z * v.x,
     q.w * v.z + q.x * v.y - q.y * v.x⟩) quats vectors

/-- Lines 423-442: the rows appended by a split.  `samples0` stands for the
`Tensor::random([samps, 3], Normal(0,1))` draw.  `repeat_dim(0, 2)` tiles the
selected rows, so each list of parent attributes appears twice. -/
def split_children (ops : NumOps) (s : Splats) (inds : List ℕ) (samples0 : List Vec3) : Splats :=
  let cur_pos := selectL s.means inds
  let cur_rots := selectL s.rotation inds
  let cur_coeff := selectL s.sh_coeffs inds
  let cur_opac := selectL s.raw_opacity inds
  let cur_scale := (selectL s.log_scales inds).map (vexp ops)
  let samples := quaternion_rotation cur_rots (List.zipWith vmul samples0 cur_scale)
  { means := List.zipWith vadd cur_pos samples ++ List.zipWith vsub cur_pos samples,
    sh_coeffs := cur_coeff ++ cur_coeff,
    rotation := cur_rots ++ cur_rots,
    raw_opacity := cur_opac ++ cur_opac,
    log_scales := (cur_scale.map (fun v => vlog ops (vdiv v (8 / 5)))) ++
      (cur_scale.map (fun v => vlog ops (vdiv v (8 / 5)))) }

/-- Lines 416-449: the split phase of the refinement step.  The children are
concatenated first; the split parents are pruned afterwards ("Concat then
prune, so that splat is nevery empty", line 444). -/
def split_step (ops : NumOps) (st : TrainerState) (sm : List Bool) (samples0 : List Vec3) :
    Option TrainerState :=
  let inds := maskInds sm
  if 0 < inds.length then
    let ch := split_children ops st.splats inds samples0
    let splats2 := st.splats.concat_splats ch.means ch.rotation ch.sh_coeffs
      ch.raw_opacity ch.log_scales
    prune_points { st with splats := splats2 } sm
  else some st

/-- Lines 451-453: every `reset_alpha_every` refinement cycles, reset the
opacities. -/
def maybe_reset (cfg : TrainConfig) (iter : ℕ) (st : TrainerState) : TrainerState :=
  if iter % (cfg.refine_every * cfg.reset_alpha_every) = 0 then reset_opacity cfg st else st

/-- Lines 362-457: one full refinement cycle, as executed when
`iter > warmup_steps && iter % refine_every == 0`: alpha prune, world-scale
prune, clone, split (masks computed before the clone), opacity reset on the
scheduled cycles, and a wholesale statistics reset. -/
def refine (ops : NumOps) (cfg : TrainConfig) (iter : ℕ) (st : TrainerState)
    (samples0 : List Vec3) : Option TrainerState := do
  let st1 ← prune_points st (alphaMask ops cfg st.splats)
  let st2 ← prune_points st1 (scaleMask ops cfg st1.splats)
  let sm := splitMask ops cfg st2
  let st3 := clone_step ops cfg st2
  let st4 ← split_step ops st3 sm samples0
  let st5 := maybe_reset cfg iter st4
  some (reset_stats st5)

/-- Lines 346-349: the screen-space gradient is converted from normalized to
pixel units by multiplying with `[img_w / 2, img_h / 2]`. -/
def pixel_grad (img_w img_h : ℚ) (g : Vec2) : Vec2 :=
  ⟨g.x * (img_w / 2), g.y * (img_h / 2)⟩

/-- Line 351: `xys_grad.powf_scalar(2.0).sum_dim(1).sqrt()`. -/
def grad_mag (ops : NumOps) (g : Vec2) : ℚ := ops.sqrt (g.x * g.x + g.y * g.y)

/-- Lines 336-360: the per-step statistics update.  The recovered
screen-space gradients are converted to pixel units, their magnitudes are
computed, and the accumulators change only when `iter > warmup_steps`. -/
def housekeeping_update (ops : NumOps) (cfg : TrainConfig) (iter : ℕ) (img_w img_h : ℚ)
    (xys_grad : List Vec2) (st : TrainerState) : TrainerState :=
  let mags := xys_grad.map (fun g => grad_mag ops (pixel_grad img_w img_h g))
  if cfg.warmup_steps < iter then
    { st with grad_2d_accum := List.zipWith (fun a m => a + m) st.grad_2d_accum mags,
              xy_grad_counts := (List.zipWith (fun c m => c + (if (0 : ℚ) < m then 1 else 0))
                st.xy_grad_counts mags) }
  else st

/-- The legacy trainer state (src/train.rs:83-108): the Point Set plus
`max_radii_2d` and `xy_grad_norm_accum`. -/
structure OldTrainerState where
  splats : Splats
  max_radii_2d : List ℚ
  xy_grad_norm_accum : List ℚ
deriving DecidableEq

/-- `SplatTrainer::prune_points` of the legacy trainer (src/train.rs:316-346).
No early return for an empty mask and no padding; otherwise the same gather by
the complementary keep-index list.  Pruning every point is the same fatal burn
panic (`none`) documented in the brush-train variant. -/
def old_prune_points (st : OldTrainerState) (prune : List Bool) : Option OldTrainerState :=
  let valid_inds := keepInds prune
  let start_splats := st.splats.num_splats
  let new_points := valid_inds.length
  if new_points < start_splats then
    if new_points = 0 then none
    else some { splats := st.splats.selectRows valid_inds,
                max_radii_2d := selectL st.max_radii_2d valid_inds,
                xy_grad_norm_accum := selectL st.xy_grad_norm_accum valid_inds }
  else some st

/-- `Tensor::select_assign` on a zero base: add each value at its target
index. -/
def scatter_add (base : List ℚ) (inds : List ℕ) (vals : List ℚ) : List ℚ :=
  (List.zip inds vals).foldl (fun b iv => b.set iv.1 (b.getD iv.1 0 + iv.2)) base

/-- `SplatTrainer::update_stats` of the legacy trainer (src/train.rs:158-177):
called on every step, it maxes the scattered compact radii into
`max_radii_2d` and the raw (unconverted) gradient norms into
`xy_grad_norm_accum`. -/
def old_update_stats (ops : NumOps) (radii_compact : List ℚ)
    (global_from_compact_gid : List ℕ) (xys_grad : List Vec2)
    (st : OldTrainerState) : OldTrainerState :=
  let radii := scatter_add (List.replicate radii_compact.length 0)
    global_from_compact_gid radii_compact
  { st with
    max_radii_2d := List.zipWith max st.max_radii_2d radii,
    xy_grad_norm_accum := (List.zipWith max st.xy_grad_norm_accum
      (xys_grad.map (fun g => ops.sqrt (g.x * g.x + g.y * g.y)))) }

/-- `SplatTrainer::reset_opacity` of the legacy trainer (src/train.rs:305-310):
subtract 1.0 from every raw opacity. -/
def old_reset_opacity (st : OldTrainerState) : OldTrainerState :=
  { st with splats :=
      { st.splats with raw_opacity := st.splats.raw_opacity.map (fun x => x - 1) } }

/-- Modelled from the spec: `utils::quaternion_rotation` (src/utils.rs) is not
under src/.  Spec §4.3 says the sampled offset is "rotated by the point's
orientation"; this is the standard unit-quaternion rotation of each vector.
The legacy call site passes the vectors first and the quaternions second. -/
def old_quaternion_rotation (vectors : List Vec3) (quats : List Quat) : List Vec3 :=
  List.zipWith (fun v q =>
    let tx := 2 * (q.y * v.z - q.z * v.y)
    let ty := 2 * (q.z * v.x - q.x * v.z)
    let tz := 2 * (q.x * v.y - q.y * v.x)
    ⟨v.x + q.w * tx + (q.y * tz - q.z * ty),
     v.y + q.w * ty + (q.z * tx - q.x * tz),
     v.z + q.w * tz + (q.x * ty - q.y * tx)⟩) vectors quats

/-- `SplatTrainer::densify_and_prune` of the legacy trainer
(src/train.rs:180-303).  `centered_samples` stands for the
`Tensor::random([samps * 2, 3], Normal(0,1))` draw.  Clone and split phases
run only when at least 4 candidates exist; the split phase computes the child
rows, then prunes the parents, then concatenates the children. -/
def old_densify_and_prune (ops : NumOps) (st : OldTrainerState) (grad_threshold : ℚ)
    (max_pixel_threshold : Option ℚ) (max_world_size_threshold : Option ℚ)
    (clone_vs_split_size_threshold : ℚ) (centered_samples : List Vec3) :
    Option OldTrainerState := do
  let stA ← match max_pixel_threshold with
    | some threshold =>
        old_prune_points st (st.max_radii_2d.map (fun r => decide (threshold < r)))
    | none => some st
  let stB ← match max_world_size_threshold with
    | some threshold =>
        old_prune_points stA
          (stA.splats.log_scales.map (fun v => decide (threshold < maxScale ops v)))
    | none => some stA
  let grads := stB.xy_grad_norm_accum
  let big_grad_mask := grads.map (fun g => decide (grad_threshold ≤ g))
  let split_clone_size_mask := stB.splats.log_scales.map
    (fun v => decide (maxScale ops v < clone_vs_split_size_threshold))
  let clone_mask := List.zipWith (fun sm bg => sm && bg) split_clone_size_mask big_grad_mask
  let split_mask := List.zipWith (fun sm bg => (!sm) && bg) split_clone_size_mask big_grad_mask
  let clone_inds := maskInds clone_mask
  let stC :=
    if 4 ≤ clone_inds.length then
      { stB with splats := (stB.splats.concat_splats
          (selectL stB.splats.means clone_inds) (selectL stB.splats.rotation clone_inds)
          (selectL stB.splats.sh_coeffs clone_inds) (selectL stB.splats.raw_opacity clone_inds)
          (selectL stB.splats.log_scales clone_inds)) }
    else stB
  let split_inds := maskInds split_mask
  if 4 ≤ split_inds.length then
    let scaled_samples := List.zipWith vmul
      (((selectL stC.splats.log_scales split_inds) ++
        (selectL stC.splats.log_scales split_inds)).map (vexp ops)) centered_samples
    let rotated_samples := old_quaternion_rotation scaled_samples
      ((selectL stC.splats.rotation split_inds) ++ (selectL stC.splats.rotation split_inds))
    let new_means := List.zipWith vadd rotated_samples
      ((selectL stC.splats.means split_inds) ++ (selectL stC.splats.means split_inds))
    let new_rots := (selectL stC.splats.rotation split_inds) ++
      (selectL stC.splats.rotation split_inds)
    let new_coeffs := (selectL stC.splats.sh_coeffs split_inds) ++
      (selectL stC.splats.sh_coeffs split_inds)
    let new_opac := (selectL stC.splats.raw_opacity split_inds) ++
      (selectL stC.splats.raw_opacity split_inds)
    let new_scales :=
      (((selectL stC.splats.log_scales split_inds).map (vexp ops)).map
        (fun v => vlog ops (vdiv v (8 / 5)))) ++
      (((selectL stC.splats.log_scales split_inds).map (vexp ops)).map
        (fun v => vlog ops (vdiv v (8 / 5))))
    let stD ← old_prune_points stC split_mask
    some { stD with splats := (stD.splats.concat_splats
        new_means new_rots new_coeffs new_opac new_scales) }
  else some stC

def idQuat : Quat := ⟨1, 0, 0, 0⟩

def v3zero : Vec3 := ⟨0, 0, 0⟩

/-- A configuration whose thresholds make the single point of `stC1` a clone
candidate (average gradient 1 ≥ 0, size 0 < 1). -/
def cfgC1 : TrainConfig := ⟨0, 1, 0, 1, 1, 0, 1⟩

def stC1 : TrainerState := ⟨⟨[v3zero], [[0]], [idQuat], [0], [v3zero]⟩, [1], [1]⟩

/-- C1 counterexample: one clone operation leaves the five Point-Set arrays at
length 2 while both gradient-statistics arrays are still at length 1 — the
concatenation of clone rows (crates/brush-train/src/train.rs:403-414) extends
only the Point-Set arrays, so the lengths are not identical after this
individual operation. -/
theorem clone_breaks_length_lockstep :
    (clone_step idOps cfgC1 stC1).splats.num_splats = 2 ∧
    (clone_step idOps cfgC1 stC1).grad_2d_accum.length = 1 ∧
    (clone_step idOps cfgC1 stC1).xy_grad_counts.length = 1 ∧ (2 : ℕ) ≠ 1 := by
  decide

def oldStC2 : OldTrainerState :=
  ⟨⟨List.replicate 4 v3zero, List.replicate 4 [0], List.replicate 4 idQuat,
    List.replicate 4 0, List.replicate 4 ⟨1, 1, 1⟩⟩,
   List.replicate 4 0, List.replicate 4 1⟩

def stC2 : TrainerState :=
  ⟨⟨List.replicate 4 v3zero, List.replicate 4 [0], List.replicate 4 idQuat,
    List.replicate 4 0, List.replicate 4 ⟨1, 1, 1⟩⟩,
   List.replicate 4 1, List.replicate 4 1⟩

/-- C2 counterexample: in the legacy trainer (src/train.rs:299-301) the split
parents are pruned BEFORE the children are concatenated, so a split that
selects all four points hits the fatal all-points prune (`none`) instead of
completing; the brush-train order (concatenate, then prune,
crates/brush-train/src/train.rs:444-448) completes the same split with
4 + 4 = 8 points. -/
theorem old_split_prunes_before_concat :
    old_densify_and_prune idOps oldStC2 0 none none 1 (List.replicate 8 v3zero) = none ∧
    (split_step idOps stC2 [true, true, true, true] (List.replicate 4 v3zero)).map
      (fun s => s.splats.num_splats) = some 8 := by
  decide

def oldStC5 : OldTrainerState :=
  ⟨⟨[v3zero, v3zero, v3zero, v3zero, ⟨9, 9, 9⟩],
    [[0], [0], [0], [0], [0]],
    List.replicate 5 idQuat,
    List.replicate 5 0,
    [⟨1, 1, 1⟩, ⟨1, 1, 1⟩, ⟨1, 1, 1⟩, ⟨1, 1, 1⟩, v3zero]⟩,
   List.replicate 5 0,
   [1, 1, 1, 1, 0]⟩

def sampC5 : List Vec3 :=
  [⟨1, 0, 0⟩, v3zero, v3zero, v3zero, ⟨2, 0, 0⟩, v3zero, v3zero, v3zero]

/-- C5 counterexample: in the legacy trainer the two children of one split
parent receive two INDEPENDENT sampled offsets (src/train.rs:252-260 draws
`samps * 2` samples), not center plus and minus one offset.  Here the parent
at the origin gets children at ⟨1,0,0⟩ (result row 1) and ⟨2,0,0⟩ (result row
5); were they center ± one offset their sum would be twice the parent center,
i.e. the origin, but it is ⟨3,0,0⟩. -/
theorem old_split_children_not_mirrored :
    (old_densify_and_prune idOps oldStC5 1 none none 1 sampC5).map
      (fun s => (s.splats.means.getD 1 v3zero, s.splats.means.getD 5 v3zero)) =
      some (⟨1, 0, 0⟩, ⟨2, 0, 0⟩) ∧
    vadd ⟨1, 0, 0⟩ ⟨2, 0, 0⟩ ≠ vadd v3zero v3zero := by
  decide

def oldStC7 : OldTrainerState := ⟨⟨[v3zero], [[0]], [idQuat], [0], [v3zero]⟩, [0], [0]⟩

/-- C7 counterexample: the legacy trainer calls `update_stats` on every step
(src/train.rs:463), with no warmup gate and no normalized-to-pixel conversion:
at iteration 0 ≤ warmup_steps the gradient accumulator still changes (here the
raw gradient ⟨3,4⟩ maxes the accumulator from 0 to sqrt 25, i.e. 25 under the
identity interpretation of sqrt). -/
theorem old_stats_update_ignores_warmup :
    oldStC7.xy_grad_norm_accum = [0] ∧
    (old_update_stats idOps [0] [0] [⟨3, 4⟩] oldStC7).xy_grad_norm_accum = [25] ∧
    ((25 : ℚ)) ≠ 0 := by
  decide

def oldStC8 : OldTrainerState :=
  ⟨⟨[v3zero, v3zero], [[0], [0]], [idQuat, idQuat], [0, 5], [v3zero, v3zero]⟩,
   [0, 0], [0, 0]⟩

/-- C8 counterexample: the legacy trainer's opacity reset
(src/train.rs:305-310) subtracts 1.0 from every raw opacity instead of
overwriting with one fixed low value: raw opacities [0, 5] become [-1, 4],
two different values, so the reset is not a direct overwrite to a fixed
value. -/
theorem old_reset_opacity_not_fixed_value :
    (old_reset_opacity oldStC8).splats.raw_opacity = [-1, 4] ∧ ((-1 : ℚ)) ≠ 4 := by
  decide

theorem selectL_inds_nil {α : Type} (xs : List α) : selectL xs [] = [] := rfl

theorem selectL_inds_append {α : Type} (xs : List α) (i1 i2 : List ℕ) :
    selectL xs (i1 ++ i2) = selectL xs i1 ++ selectL xs i2 := by
  simp [selectL]

theorem selectL_cons_map_succ {α : Type} (x : α) (xs : List α) (inds : List ℕ) :
    selectL (x :: xs) (inds.map Nat.succ) = selectL xs inds := by
  unfold selectL
  rw [List.filterMap_map]
  rfl

theorem maskInds_lt {m : List Bool} {i : ℕ} (h : i ∈ maskInds m) : i < m.length := by
  induction m generalizing i with
  | nil => simp [maskInds] at h
  | cons b m ih =>
    cases b <;> simp [maskInds] at h
    · rcases h with ⟨j, hj, rfl⟩
      have := ih hj
      simp only [List.length_cons]
      omega
    · rcases h with rfl | ⟨j, hj, rfl⟩
      · simp
      · have := ih hj
        simp only [List.length_cons]
        omega

theorem mem_maskInds {m : List Bool} {i : ℕ} : i ∈ maskInds m ↔ m.getD i false = true := by
  induction m generalizing i with
  | nil => simp [maskInds]
  | cons b m ih =>
    cases i with
    | zero =>
      by_cases hb : b = true <;> simp [maskInds, hb]
    | succ i =>
      by_cases hb : b = true <;>
        simp [maskInds, hb, Nat.succ_eq_add_one, ih]

theorem maskInds_keepInds_length (m : List Bool) :
    (maskInds m).length + (keepInds m).length = m.length := by
  induction m with
  | nil => simp [maskInds, keepInds]
  | cons b m ih =>
    by_cases hb : b = true <;>
      simp [maskInds, keepInds, hb] at ih ⊢ <;>
      omega

theorem keepInds_length_le (m : List Bool) : (keepInds m).length ≤ m.length := by
  have := maskInds_keepInds_length m
  omega

theorem keepInds_lt {m : List Bool} {i : ℕ} (h : i ∈ keepInds m) : i < m.length := by
  have := maskInds_lt (m := m.map (fun b => !b)) h
  simpa using this

theorem selectL_length {α : Type} (xs : List α) (inds : List ℕ)
    (h : ∀ i ∈ inds, i < xs.length) : (selectL xs inds).length = inds.length := by
  induction inds with
  | nil => rfl
  | cons i inds ih =>
    have hi : i < xs.length := h i (List.mem_cons_self i inds)
    have hg : xs[i]? = some (xs[i]) := List.getElem?_eq_getElem hi
    have ih' := ih (fun j hj => h j (List.mem_cons_of_mem i hj))
    simpa [selectL, List.filterMap_cons, hg] using ih'

theorem map_succ_map_add (l : List ℕ) (n : ℕ) :
    (l.map (fun i => i + n)).map Nat.succ = l.map (fun i => i + (n + 1)) := by
  rw [List.map_map]
  congr 1

theorem maskInds_append (m1 m2 : List Bool) :
    maskInds (m1 ++ m2) = maskInds m1 ++ (maskInds m2).map (fun i => i + m1.length) := by
  induction m1 with
  | nil => simp [maskInds]
  | cons b m1 ih =>
    cases b <;>
      simp [maskInds, ih, List.map_append, map_succ_map_add, Nat.succ_eq_add_one] <;>
      (intro a _; omega)

theorem maskInds_replicate_false (j : ℕ) : maskInds (List.replicate j false) = [] := by
  induction j with
  | zero => rfl
  | succ j ih => simp [List.replicate_succ, maskInds, ih]

theorem maskInds_replicate_true (j : ℕ) : maskInds (List.replicate j true) = List.range j := by
  induction j with
  | zero => rfl
  | succ j ih => simp [List.replicate_succ, maskInds, ih, List.range_succ_eq_map]

theorem keepInds_append_replicate_false (m : List Bool) (j : ℕ) :
    keepInds (m ++ List.replicate j false) =
      keepInds m ++ (List.range j).map (fun i => i + m.length) := by
  unfold keepInds
  rw [List.map_append, maskInds_append]
  simp [List.map_replicate, maskInds_replicate_true]

theorem selectL_cons_zero {α : Type} (x : α) (xs : List α) (inds : List ℕ) :
    selectL (x :: xs) (0 :: inds) = x :: selectL (x :: xs) inds := rfl

theorem selectL_range_self {α : Type} (xs : List α) :
    selectL xs (List.range xs.length) = xs := by
  induction xs with
  | nil => rfl
  | cons x xs ih =>
    rw [List.length_cons, List.range_succ_eq_map, selectL_cons_zero, selectL_cons_map_succ, ih]

theorem maskInds_nil_all_false {m : List Bool} (h : maskInds m = []) :
    m = List.replicate m.length false := by
  induction m with
  | nil => rfl
  | cons b m ih =>
    cases b <;> simp [maskInds, List.replicate_succ] at h ⊢
    exact ih h

theorem keepRows_eq_self {α : Type} (xs : List α) (m : List Bool)
    (hlen : m.length = xs.length) (h : maskInds m = []) : keepRows xs m = xs := by
  induction m generalizing xs with
  | nil =>
    cases xs with
    | nil => rfl
    | cons => simp at hlen
  | cons b m ih =>
    cases xs with
    | nil => simp at hlen
    | cons x xs =>
      cases b <;> simp [maskInds] at h
      rw [show keepRows (x :: xs) (false :: m) = x :: keepRows xs m from rfl,
        ih xs (by simpa using hlen) h]

theorem keepInds_cons_false (m : List Bool) :
    keepInds (false :: m) = 0 :: (keepInds m).map Nat.succ := by
  simp [keepInds, maskInds]

theorem keepInds_cons_true (m : List Bool) :
    keepInds (true :: m) = (keepInds m).map Nat.succ := by
  simp [keepInds, maskInds]

theorem selectL_keepInds_eq_keepRows {α : Type} (xs : List α) (m : List Bool)
    (h : m.length = xs.length) : selectL xs (keepInds m) = keepRows xs m := by
  induction m generalizing xs with
  | nil =>
    cases xs with
    | nil => rfl
    | cons => simp at h
  | cons b m ih =>
    cases xs with
    | nil => simp at h
    | cons x xs =>
      have h' : m.length = xs.length := by simpa using h
      cases b
      · rw [keepInds_cons_false, selectL_cons_zero, selectL_cons_map_succ, ih xs h']
        rfl
      · rw [keepInds_cons_true, selectL_cons_map_succ, ih xs h']
        rfl

theorem padMask_length (m : List Bool) (n : ℕ) (h : m.length ≤ n) :
    (padMask m n).length = n := by
  unfold padMask
  by_cases h' : m.length < n <;> simp [h'] <;> omega

attribute [ext] Vec3 Vec2 Quat Splats TrainerState OldTrainerState

theorem selectL_append_of_lt {α : Type} (xs ys : List α) (inds : List ℕ)
    (h : ∀ i ∈ inds, i < xs.length) : selectL (xs ++ ys) inds = selectL xs inds := by
  induction inds with
  | nil => rfl
  | cons i inds ih =>
    have hi := h i (List.mem_cons_self i inds)
    have heq : (xs ++ ys)[i]? = xs[i]? := List.getElem?_append_left hi
    have ih' := ih (fun j hj => h j (List.mem_cons_of_mem i hj))
    simp [selectL, List.filterMap_cons, heq] at ih' ⊢
    rw [ih']

theorem selectL_map_add_shift {α : Type} (xs ys : List α) (l : List ℕ) :
    selectL (xs ++ ys) (l.map (fun i => i + xs.length)) = selectL ys l := by
  induction l with
  | nil => rfl
  | cons i l ih =>
    have heq : (xs ++ ys)[i + xs.length]? = ys[i]? := by
      rw [List.getElem?_append_right (by omega)]
      congr 1
      omega
    simp [selectL, List.filterMap_cons, heq] at ih ⊢
    rw [ih]

theorem selectL_shift_self {α : Type} (xs ys : List α) :
    selectL (xs ++ ys) ((List.range ys.length).map (fun i => i + xs.length)) = ys := by
  rw [selectL_map_add_shift, selectL_range_self]

theorem keepInds_full_range {m : List Bool} (h : (keepInds m).length = m.length) :
    keepInds m = List.range m.length := by
  have hp := maskInds_keepInds_length m
  have h0 : (maskInds m).length = 0 := by omega
  have hnil : maskInds m = [] := List.length_eq_zero.mp h0
  have hrep := maskInds_nil_all_false hnil
  have : keepInds m = keepInds (List.replicate m.length false) := by rw [← hrep]
  rw [this]
  unfold keepInds
  rw [List.map_replicate]
  simpa using maskInds_replicate_true m.length

theorem keepInds_padMask_nil (n : ℕ) : keepInds (padMask [] n) = List.range n := by
  unfold padMask
  by_cases hn : ([] : List Bool).length < n
  · simp only [hn, if_true, List.nil_append]
    unfold keepInds
    rw [List.map_replicate]
    simpa using maskInds_replicate_true (n - ([] : List Bool).length)
  · have hn0 : n = 0 := by simp at hn; omega
    subst hn0
    simp [keepInds, maskInds]

theorem keepInds_padMask_le (m : List Bool) (n : ℕ) (hm : m.length ≤ n) {i : ℕ}
    (h : i ∈ keepInds (padMask m n)) : i < n := by
  have h1 := keepInds_lt h
  rw [padMask_length m n hm] at h1
  exact h1

theorem prune_points_some_eq {st st' : TrainerState} {m : List Bool}
    (hu : st.uniform) (hm : m.length ≤ st.splats.num_splats)
    (h : prune_points st m = some st') :
    st' = { splats := st.splats.selectRows (keepInds (padMask m st.splats.num_splats)),
            grad_2d_accum := selectL st.grad_2d_accum (keepInds (padMask m st.splats.num_splats)),
            xy_grad_counts := selectL st.xy_grad_counts (keepInds (padMask m st.splats.num_splats)) } := by
  obtain ⟨⟨hc, hr, ho, hl⟩, ha, hg⟩ := hu
  have hpadlen : (padMask m st.splats.num_splats).length = st.splats.num_splats :=
    padMask_length _ _ hm
  unfold prune_points at h
  dsimp only at h
  split at h
  · -- empty mask: the source returns immediately; the keep list is all of range n
    next h0 =>
    have hm0 : m = [] := List.length_eq_zero.mp h0
    subst hm0
    cases h
    have hkr : keepInds (padMask [] st.splats.num_splats) =
        List.range st.splats.num_splats := keepInds_padMask_nil _
    have hid : ∀ {α : Type} (xs : List α), xs.length = st.splats.num_splats →
        selectL xs (keepInds (padMask [] st.splats.num_splats)) = xs := by
      intro α xs hx
      rw [hkr, ← hx, selectL_range_self]
    ext : 1
    · ext : 1 <;> simp only [Splats.selectRows] <;>
        [exact (hid _ rfl).symm; exact (hid _ hc).symm; exact (hid _ hr).symm;
         exact (hid _ ho).symm; exact (hid _ hl).symm]
    · exact (hid _ ha).symm
    · exact (hid _ hg).symm
  · next h0 =>
    split at h
    · next hlt =>
      split at h
      · next hz => exact absurd h (by simp)
      · next hz => cases h; rfl
    · next hge =>
      cases h
      -- nothing was pruned: the keep list has full length, so it is all of range n
      have hklen : (keepInds (padMask m st.splats.num_splats)).length =
          st.splats.num_splats := by
        have h1 := keepInds_length_le (padMask m st.splats.num_splats)
        rw [hpadlen] at h1
        omega
      have hkr : keepInds (padMask m st.splats.num_splats) =
          List.range st.splats.num_splats := by
        have := keepInds_full_range (m := padMask m st.splats.num_splats)
          (by rw [hpadlen]; exact hklen)
        rw [hpadlen] at this
        exact this
      have hid : ∀ {α : Type} (xs : List α), xs.length = st.splats.num_splats →
          selectL xs (keepInds (padMask m st.splats.num_splats)) = xs := by
        intro α xs hx
        rw [hkr, ← hx, selectL_range_self]
      ext : 1
      · ext : 1 <;> simp only [Splats.selectRows] <;>
          [exact (hid _ rfl).symm; exact (hid _ hc).symm; exact (hid _ hr).symm;
           exact (hid _ ho).symm; exact (hid _ hl).symm]
      · exact (hid _ ha).symm
      · exact (hid _ hg).symm

theorem prune_points_some_num {st st' : TrainerState} {m : List Bool}
    (hu : st.uniform) (hm : m.length ≤ st.splats.num_splats)
    (h : prune_points st m = some st') :
    st'.splats.num_splats = (keepInds (padMask m st.splats.num_splats)).length := by
  rw [prune_points_some_eq hu hm h]
  show (selectL st.splats.means _).length = _
  exact selectL_length _ _ (fun i hi => keepInds_padMask_le m _ hm hi)

theorem prune_points_some_uniform {st st' : TrainerState} {m : List Bool}
    (hu : st.uniform) (hm : m.length ≤ st.splats.num_splats)
    (h : prune_points st m = some st') : st'.uniform := by
  have hsome := prune_points_some_eq hu hm h
  obtain ⟨⟨hc, hr, ho, hl⟩, ha, hg⟩ := hu
  have hlen : ∀ {α : Type} (xs : List α), xs.length = st.splats.num_splats →
      (selectL xs (keepInds (padMask m st.splats.num_splats))).length =
        (keepInds (padMask m st.splats.num_splats)).length := by
    intro α xs hx
    exact selectL_length _ _ (fun i hi => by rw [hx]; exact keepInds_padMask_le m _ hm hi)
  subst hsome
  refine ⟨⟨?_, ?_, ?_, ?_⟩, ?_, ?_⟩
  · show (selectL st.splats.sh_coeffs _).length = (selectL st.splats.means _).length
    rw [hlen _ hc, hlen _ rfl]
  · show (selectL st.splats.rotation _).length = (selectL st.splats.means _).length
    rw [hlen _ hr, hlen _ rfl]
  · show (selectL st.splats.raw_opacity _).length = (selectL st.splats.means _).length
    rw [hlen _ ho, hlen _ rfl]
  · show (selectL st.splats.log_scales _).length = (selectL st.splats.means _).length
    rw [hlen _ hl, hlen _ rfl]
  · show (selectL st.grad_2d_accum _).length = (selectL st.splats.means _).length
    rw [hlen _ ha, hlen _ rfl]
  · show (selectL st.xy_grad_counts _).length = (selectL st.splats.means _).length
    rw [hlen _ hg, hlen _ rfl]

theorem cloneMask_length {st : TrainerState} (ops : NumOps) (cfg : TrainConfig)
    (hu : st.uniform) : (cloneMask ops cfg st).length = st.splats.num_splats := by
  obtain ⟨⟨hc, hr, ho, hl⟩, ha, hg⟩ := hu
  simp [cloneMask, sizeSmallMask, bigGradMask, avgGrads, Splats.num_splats, hl, ha, hg]

theorem splitMask_length {st : TrainerState} (ops : NumOps) (cfg : TrainConfig)
    (hu : st.uniform) : (splitMask ops cfg st).length = st.splats.num_splats := by
  obtain ⟨⟨hc, hr, ho, hl⟩, ha, hg⟩ := hu
  simp [splitMask, sizeSmallMask, bigGradMask, avgGrads, Splats.num_splats, hl, ha, hg]

theorem clone_step_splats (ops : NumOps) (cfg : TrainConfig) (st : TrainerState) :
    (clone_step ops cfg st).splats =
      st.splats.concat_splats
        (selectL st.splats.means (maskInds (cloneMask ops cfg st)))
        (selectL st.splats.rotation (maskInds (cloneMask ops cfg st)))
        (selectL st.splats.sh_coeffs (maskInds (cloneMask ops cfg st)))
        (selectL st.splats.raw_opacity (maskInds (cloneMask ops cfg st)))
        (selectL st.splats.log_scales (maskInds (cloneMask ops cfg st))) ∧
    (clone_step ops cfg st).grad_2d_accum = st.grad_2d_accum ∧
    (clone_step ops cfg st).xy_grad_counts = st.xy_grad_counts := by
  unfold clone_step
  dsimp only
  split
  · exact ⟨rfl, rfl, rfl⟩
  · next hn =>
    have hmi : maskInds (cloneMask ops cfg st) = [] := by
      cases hx : maskInds (cloneMask ops cfg st) with
      | nil => rfl
      | cons a l => rw [hx] at hn; simp at hn
    rw [hmi]
    refine ⟨?_, rfl, rfl⟩
    simp [selectL_inds_nil, Splats.concat_splats]

theorem prune_points_some_splats {st st' : TrainerState} {m : List Bool}
    (hsu : st.splats.uniform) (hm : m.length ≤ st.splats.num_splats)
    (h : prune_points st m = some st') :
    st'.splats = st.splats.selectRows (keepInds (padMask m st.splats.num_splats)) := by
  obtain ⟨hc, hr, ho, hl⟩ := hsu
  unfold prune_points at h
  dsimp only at h
  split at h
  · next h0 =>
    have hm0 : m = [] := List.length_eq_zero.mp h0
    subst hm0
    cases h
    have hkr := keepInds_padMask_nil st.splats.num_splats
    have hid : ∀ {α : Type} (xs : List α), xs.length = st.splats.num_splats →
        selectL xs (keepInds (padMask [] st.splats.num_splats)) = xs := by
      intro α xs hx
      rw [hkr, ← hx, selectL_range_self]
    ext : 1 <;> simp only [Splats.selectRows] <;>
      [exact (hid _ rfl).symm; exact (hid _ hc).symm; exact (hid _ hr).symm;
       exact (hid _ ho).symm; exact (hid _ hl).symm]
  · next h0 =>
    have hpadlen : (padMask m st.splats.num_splats).length = st.splats.num_splats :=
      padMask_length _ _ hm
    split at h
    · next hlt =>
      split at h
      · next hz => exact absurd h (by simp)
      · next hz => cases h; rfl
    · next hge =>
      cases h
      have hklen : (keepInds (padMask m st.splats.num_splats)).length =
          st.splats.num_splats := by
        have h1 := keepInds_length_le (padMask m st.splats.num_splats)
        rw [hpadlen] at h1
        omega
      have hkr : keepInds (padMask m st.splats.num_splats) =
          List.range st.splats.num_splats := by
        have := keepInds_full_range (m := padMask m st.splats.num_splats)
          (by rw [hpadlen]; exact hklen)
        rw [hpadlen] at this
        exact this
      have hid : ∀ {α : Type} (xs : List α), xs.length = st.splats.num_splats →
          selectL xs (keepInds (padMask m st.splats.num_splats)) = xs := by
        intro α xs hx
        rw [hkr, ← hx, selectL_range_self]
      ext : 1 <;> simp only [Splats.selectRows] <;>
        [exact (hid _ rfl).symm; exact (hid _ hc).symm; exact (hid _ hr).symm;
         exact (hid _ ho).symm; exact (hid _ hl).symm]

theorem prune_points_some_splats_num {st st' : TrainerState} {m : List Bool}
    (hsu : st.splats.uniform) (hm : m.length ≤ st.splats.num_splats)
    (h : prune_points st m = some st') :
    st'.splats.num_splats = (keepInds (padMask m st.splats.num_splats)).length := by
  rw [prune_points_some_splats hsu hm h]
  show (selectL st.splats.means _).length = _
  exact selectL_length _ _ (fun i hi => keepInds_padMask_le m _ hm hi)

theorem prune_points_some_splats_uniform {st st' : TrainerState} {m : List Bool}
    (hsu : st.splats.uniform) (hm : m.length ≤ st.splats.num_splats)
    (h : prune_points st m = some st') : st'.splats.uniform := by
  obtain ⟨hc, hr, ho, hl⟩ := hsu
  have hlen : ∀ {α : Type} (xs : List α), xs.length = st.splats.num_splats →
      (selectL xs (keepInds (padMask m st.splats.num_splats))).length =
        (keepInds (padMask m st.splats.num_splats)).length := by
    intro α xs hx
    exact selectL_length _ _ (fun i hi => by rw [hx]; exact keepInds_padMask_le m _ hm hi)
  rw [prune_points_some_splats ⟨hc, hr, ho, hl⟩ hm h]
  refine ⟨?_, ?_, ?_, ?_⟩
  · show (selectL st.splats.sh_coeffs _).length = (selectL st.splats.means _).length
    rw [hlen _ hc, hlen _ rfl]
  · show (selectL st.splats.rotation _).length = (selectL st.splats.means _).length
    rw [hlen _ hr, hlen _ rfl]
  · show (selectL st.splats.raw_opacity _).length = (selectL st.splats.means _).length
    rw [hlen _ ho, hlen _ rfl]
  · show (selectL st.splats.log_scales _).length = (selectL st.splats.means _).length
    rw [hlen _ hl, hlen _ rfl]

theorem prune_points_some_num_le {st st' : TrainerState} {m : List Bool}
    (hsu : st.splats.uniform) (hm : m.length ≤ st.splats.num_splats)
    (h : prune_points st m = some st') :
    st'.splats.num_splats ≤ st.splats.num_splats := by
  rw [prune_points_some_splats_num hsu hm h]
  have h1 := keepInds_length_le (padMask m st.splats.num_splats)
  rw [padMask_length _ _ hm] at h1
  exact h1

theorem keepInds_padMask_count {m : List Bool} {n : ℕ} (hm : m.length ≤ n) :
    (keepInds (padMask m n)).length = n - (maskInds m).length := by
  have hpart := maskInds_keepInds_length m
  unfold padMask
  by_cases hlt : m.length < n
  · rw [if_pos hlt, keepInds_append_replicate_false]
    simp only [List.length_append, List.length_map, List.length_range]
    omega
  · rw [if_neg hlt]
    omega

theorem concat_splats_uniform {s t : Splats} (hs : s.uniform) (ht : t.uniform) :
    (s.concat_splats t.means t.rotation t.sh_coeffs t.raw_opacity t.log_scales).uniform ∧
    (s.concat_splats t.means t.rotation t.sh_coeffs t.raw_opacity
      t.log_scales).num_splats = s.num_splats + t.num_splats := by
  obtain ⟨hc, hr, ho, hl⟩ := hs
  obtain ⟨tc, tr, to2, tl⟩ := ht
  refine ⟨⟨?_, ?_, ?_, ?_⟩, ?_⟩ <;>
    simp [Splats.concat_splats, Splats.num_splats, hc, hr, ho, hl, tc, tr, to2, tl]

theorem split_children_uniform (ops : NumOps) (s : Splats) (inds : List ℕ)
    (samples0 : List Vec3) (hsu : s.uniform) (hb : ∀ i ∈ inds, i < s.num_splats)
    (hs : inds.length ≤ samples0.length) :
    (split_children ops s inds samples0).uniform ∧
    (split_children ops s inds samples0).num_splats = 2 * inds.length := by
  obtain ⟨hc, hr, ho, hl⟩ := hsu
  have hm : (selectL s.means inds).length = inds.length :=
    selectL_length _ _ (fun i hi => hb i hi)
  have hro : (selectL s.rotation inds).length = inds.length :=
    selectL_length _ _ (fun i hi => by rw [hr]; exact hb i hi)
  have hco : (selectL s.sh_coeffs inds).length = inds.length :=
    selectL_length _ _ (fun i hi => by rw [hc]; exact hb i hi)
  have hop : (selectL s.raw_opacity inds).length = inds.length :=
    selectL_length _ _ (fun i hi => by rw [ho]; exact hb i hi)
  have hls : (selectL s.log_scales inds).length = inds.length :=
    selectL_length _ _ (fun i hi => by rw [hl]; exact hb i hi)
  unfold split_children
  dsimp only
  refine ⟨⟨?_, ?_, ?_, ?_⟩, ?_⟩ <;>
    · simp [quaternion_rotation, Splats.num_splats, List.length_zipWith,
        hm, hro, hco, hop, hls, hs]
      try omega

theorem split_step_some_splats {ops : NumOps} {st st' : TrainerState} {sm : List Bool}
    {samples0 : List Vec3} (hsu : st.splats.uniform)
    (hsm : sm.length ≤ st.splats.num_splats)
    (hs : (maskInds sm).length ≤ samples0.length)
    (h : split_step ops st sm samples0 = some st') :
    st'.splats.uniform ∧
    st'.splats.num_splats = st.splats.num_splats + (maskInds sm).length := by
  unfold split_step at h
  dsimp only at h
  split at h
  · next hk =>
    -- children rows are appended, then the parents are pruned
    have hb : ∀ i ∈ maskInds sm, i < st.splats.num_splats := by
      intro i hi
      have := maskInds_lt hi
      omega
    set ch := split_children ops st.splats (maskInds sm) samples0 with hch
    obtain ⟨hchu, hchn⟩ :=
      split_children_uniform ops st.splats (maskInds sm) samples0 hsu hb hs
    obtain ⟨hcat, hcatn⟩ := concat_splats_uniform hsu hchu
    have hmid : ({ st with splats := (st.splats.concat_splats ch.means ch.rotation
        ch.sh_coeffs ch.raw_opacity ch.log_scales) } : TrainerState).splats.num_splats =
        st.splats.num_splats + 2 * (maskInds sm).length := by
      show (st.splats.concat_splats ch.means ch.rotation ch.sh_coeffs ch.raw_opacity
        ch.log_scales).num_splats = _
      rw [hcatn, hchn]
    have hsm2 : sm.length ≤ ({ st with splats := (st.splats.concat_splats ch.means
        ch.rotation ch.sh_coeffs ch.raw_opacity ch.log_scales) } :
        TrainerState).splats.num_splats := by
      rw [hmid]
      omega
    refine ⟨prune_points_some_splats_uniform hcat hsm2 h, ?_⟩
    rw [prune_points_some_splats_num hcat hsm2 h, keepInds_padMask_count hsm2, hmid]
    have hpart := maskInds_keepInds_length sm
    omega
  · next hk =>
    cases h
    have hk0 : (maskInds sm).length = 0 := by omega
    exact ⟨hsu, by omega⟩

theorem maskInds_length_le (m : List Bool) : (maskInds m).length ≤ m.length := by
  have := maskInds_keepInds_length m
  omega

theorem selectRows_uniform {s : Splats} (hsu : s.uniform) {inds : List ℕ}
    (hb : ∀ i ∈ inds, i < s.num_splats) :
    (s.selectRows inds).uniform ∧ (s.selectRows inds).num_splats = inds.length := by
  obtain ⟨hc, hr, ho, hl⟩ := hsu
  have hlen : ∀ {α : Type} (xs : List α), xs.length = s.num_splats →
      (selectL xs inds).length = inds.length := by
    intro α xs hx
    exact selectL_length _ _ (fun i hi => by rw [hx]; exact hb i hi)
  refine ⟨⟨?_, ?_, ?_, ?_⟩, ?_⟩
  · show (selectL s.sh_coeffs inds).length = (selectL s.means inds).length
    rw [hlen _ hc, hlen _ rfl]
  · show (selectL s.rotation inds).length = (selectL s.means inds).length
    rw [hlen _ hr, hlen _ rfl]
  · show (selectL s.raw_opacity inds).length = (selectL s.means inds).length
    rw [hlen _ ho, hlen _ rfl]
  · show (selectL s.log_scales inds).length = (selectL s.means inds).length
    rw [hlen _ hl, hlen _ rfl]
  · show (selectL s.means inds).length = inds.length
    exact hlen _ rfl

theorem clone_step_uniform {st : TrainerState} (ops : NumOps) (cfg : TrainConfig)
    (hu : st.uniform) :
    (clone_step ops cfg st).splats.uniform ∧
    (clone_step ops cfg st).splats.num_splats =
      st.splats.num_splats + (maskInds (cloneMask ops cfg st)).length := by
  have hb : ∀ i ∈ maskInds (cloneMask ops cfg st), i < st.splats.num_splats := by
    intro i hi
    have h1 := maskInds_lt hi
    rw [cloneMask_length ops cfg hu] at h1
    exact h1
  obtain ⟨hselu, hseln⟩ := selectRows_uniform hu.1 hb
  obtain ⟨hcs, _, _⟩ := clone_step_splats ops cfg st
  obtain ⟨hcat, hcatn⟩ := concat_splats_uniform hu.1 hselu
  rw [hseln] at hcatn
  rw [hcs]
  exact ⟨hcat, hcatn⟩

theorem maybe_reset_uniform (cfg : TrainConfig) (iter : ℕ) {st : TrainerState}
    (hsu : st.splats.uniform) :
    (maybe_reset cfg iter st).splats.uniform ∧
    (maybe_reset cfg iter st).splats.num_splats = st.splats.num_splats := by
  obtain ⟨hc, hr, ho, hl⟩ := hsu
  unfold maybe_reset reset_opacity
  split
  · exact ⟨⟨by simpa using hc, by simpa using hr, by simpa using ho,
      by simpa using hl⟩, rfl⟩
  · exact ⟨⟨hc, hr, ho, hl⟩, rfl⟩

theorem reset_stats_uniform {st : TrainerState} (hsu : st.splats.uniform) :
    (reset_stats st).uniform := by
  exact ⟨hsu, by simp [reset_stats], by simp [reset_stats]⟩

theorem refine_some_uniform {ops : NumOps} {cfg : TrainConfig} {iter : ℕ}
    {st stR : TrainerState} {samples0 : List Vec3} (hu : st.uniform)
    (hs : st.splats.num_splats ≤ samples0.length)
    (h : refine ops cfg iter st samples0 = some stR) : stR.uniform := by
  unfold refine at h
  simp only [bind, Option.bind_eq_some] at h
  obtain ⟨st1, h1, h⟩ := h
  obtain ⟨st2, h2, h⟩ := h
  obtain ⟨st4, h4, h⟩ := h
  -- the first prune: the alpha mask has exactly the current length
  have hma : (alphaMask ops cfg st.splats).length ≤ st.splats.num_splats := by
    have := hu.1.2.2.1
    simp [alphaMask, Splats.num_splats, this]
  have hu1 : st1.uniform := prune_points_some_uniform hu hma h1
  have hn1 : st1.splats.num_splats ≤ st.splats.num_splats :=
    prune_points_some_num_le hu.1 hma h1
  -- the second prune
  have hms : (scaleMask ops cfg st1.splats).length ≤ st1.splats.num_splats := by
    have := hu1.1.2.2.2
    simp [scaleMask, Splats.num_splats, this]
  have hu2 : st2.uniform := prune_points_some_uniform hu1 hms h2
  have hn2 : st2.splats.num_splats ≤ st1.splats.num_splats :=
    prune_points_some_num_le hu1.1 hms h2
  -- clone
  obtain ⟨hu3, hn3⟩ := clone_step_uniform ops cfg hu2
  -- split
  have hsml : (splitMask ops cfg st2).length = st2.splats.num_splats :=
    splitMask_length ops cfg hu2
  have hsm : (splitMask ops cfg st2).length ≤ (clone_step ops cfg st2).splats.num_splats := by
    omega
  have hsk : (maskInds (splitMask ops cfg st2)).length ≤ samples0.length := by
    have := maskInds_length_le (splitMask ops cfg st2)
    omega
  obtain ⟨hu4, _⟩ := split_step_some_splats hu3 hsm hsk h4
  -- opacity reset and statistics reset
  cases h
  exact reset_stats_uniform (maybe_reset_uniform cfg iter hu4).1

/-- C4: a prune whose mask selects every point (which would leave the Point
Set empty) fails fatally — the keep-index list is empty, which is the
documented burn panic (crates/brush-train/src/train.rs:175), modelled as
`none` — so no mutated state and no zero-length Point Set is ever produced. -/
theorem prune_all_points_fatal (st : TrainerState) (n : ℕ)
    (hn : st.splats.num_splats = n) (hpos : 0 < n) :
    prune_points st (List.replicate n true) = none := by
  have hkeep : keepInds (padMask (List.replicate n true) n) = [] := by
    unfold padMask
    rw [if_neg (by simp)]
    unfold keepInds
    rw [List.map_replicate]
    simpa using maskInds_replicate_false n
  unfold prune_points
  dsimp only
  rw [hn, hkeep]
  have hn0 : ¬ (List.replicate n true).length = 0 := by simp; omega
  rw [if_neg hn0, if_pos (by simpa using hpos)]
  simp

/-- C4 witness: a one-point state pruned with the all-true mask is rejected
fatally. -/
theorem prune_all_points_fatal_witness :
    stC1.splats.num_splats = 1 ∧ 0 < 1 ∧
      prune_points stC1 (List.replicate 1 true) = none :=
  ⟨rfl, by decide, prune_all_points_fatal stC1 1 rfl (by decide)⟩

/-- A configuration with warmup_steps = 1 and otherwise default-like
thresholds, used for the gradient-statistics scenario. -/
def cfgScen : TrainConfig := ⟨1, 100, 1 / 10, 1 / 2, 30, 1 / 10000, 1 / 100⟩

def stScen : TrainerState := ⟨⟨[v3zero], [[0]], [idQuat], [0], [v3zero]⟩, [0], [0]⟩

/-- The spec scenario trace: per-iteration raw screen gradients for a single
point.  With image size 2 × 2 the pixel conversion is the identity and the
accumulated magnitude of ⟨1, 2⟩ is 5 under the identity sqrt. -/
def scenTrace : List (ℕ × Vec2) :=
  [(0, ⟨1, 2⟩), (1, ⟨0, 0⟩), (2, ⟨1, 2⟩), (3, ⟨0, 0⟩), (4, ⟨1, 2⟩)]

def scenRun : TrainerState :=
  scenTrace.foldl (fun s p => housekeeping_update idOps cfgScen p.1 2 2 [p.2] s) stScen

/-- C3: the controller average is grad_accum / max(visibility_count, 1); the
accumulator adds the gradient magnitude and the count increments (by exactly
the indicator of a nonzero magnitude) only on post-warmup iterations; on the
scenario trace — magnitude 5 on two post-warmup iterations, 0 elsewhere —
the average is 5, not the diluted 5/2. -/
theorem controller_average_gradient :
    (∀ (ops : NumOps) (cfg : TrainConfig) (iter : ℕ) (w h : ℚ) (g : Vec2)
        (sp : Splats) (a : ℚ) (c : ℕ),
      housekeeping_update ops cfg iter w h [g] ⟨sp, [a], [c]⟩ =
        (if cfg.warmup_steps < iter then
          ⟨sp, [a + grad_mag ops (pixel_grad w h g)],
            [c + (if (0 : ℚ) < grad_mag ops (pixel_grad w h g) then 1 else 0)]⟩
        else ⟨sp, [a], [c]⟩)) ∧
    (∀ (sp : Splats) (a : ℚ) (c : ℕ),
      avgGrads ⟨sp, [a], [c]⟩ = [a / ((max c 1 : ℕ) : ℚ)]) ∧
    avgGrads scenRun = [5] ∧ avgGrads scenRun ≠ [5 / 2] := by
  refine ⟨?_, ?_, ?_, ?_⟩
  · intro ops cfg iter w h g sp a c
    unfold housekeeping_update
    split <;> rfl
  · intro sp a c
    rfl
  · decide
  · decide

/-- C7 (amended, brush-train trainer): the screen-space gradient is converted
to pixel units by multiplying componentwise with (w/2, h/2); for iterations
at or below warmup_steps the accumulators are untouched, and above warmup the
magnitude sum and nonzero-presence count are accumulated.  The legacy trainer
violates the original claim: see `old_stats_update_ignores_warmup`. -/
theorem housekeeping_warmup_gate (ops : NumOps) (cfg : TrainConfig) (iter : ℕ)
    (w h : ℚ) (gs : List Vec2) (st : TrainerState) :
    (iter ≤ cfg.warmup_steps → housekeeping_update ops cfg iter w h gs st = st) ∧
    (cfg.warmup_steps < iter →
      (housekeeping_update ops cfg iter w h gs st).grad_2d_accum =
        List.zipWith (fun a m => a + m) st.grad_2d_accum
          (gs.map (fun g => grad_mag ops ⟨g.x * (w / 2), g.y * (h / 2)⟩)) ∧
      (housekeeping_update ops cfg iter w h gs st).xy_grad_counts =
        List.zipWith (fun c m => c + (if (0 : ℚ) < m then 1 else 0)) st.xy_grad_counts
          (gs.map (fun g => grad_mag ops ⟨g.x * (w / 2), g.y * (h / 2)⟩))) := by
  constructor
  · intro hle
    unfold housekeeping_update
    rw [if_neg (by omega)]
  · intro hlt
    unfold housekeeping_update
    rw [if_pos hlt]
    exact ⟨rfl, rfl⟩

/-- C7 witness: at iteration 0 ≤ warmup nothing changes; at iteration 2 >
warmup the converted magnitude 5 is accumulated. -/
theorem housekeeping_warmup_gate_witness :
    ((0 : ℕ) ≤ cfgScen.warmup_steps ∧
      housekeeping_update idOps cfgScen 0 2 2 [⟨1, 2⟩] stScen = stScen) ∧
    (cfgScen.warmup_steps < 2 ∧
      (housekeeping_update idOps cfgScen 2 2 2 [⟨1, 2⟩] stScen).grad_2d_accum = [5]) :=
  ⟨⟨by decide,
    (housekeeping_warmup_gate idOps cfgScen 0 2 2 [⟨1, 2⟩] stScen).1 (by decide)⟩,
   ⟨by decide, by
    have hh := (housekeeping_warmup_gate idOps cfgScen 2 2 2 [⟨1, 2⟩] stScen).2 (by decide)
    rw [hh.1]
    decide⟩⟩

/-- C8 (amended, brush-train trainer): on a refinement iteration that is a
multiple of refine_every * reset_alpha_every, the reset directly overwrites
every raw opacity with the fixed value cull_alpha_thresh * 2 (just above the
prune threshold) and touches nothing else; on any other iteration
`maybe_reset` is the identity.  The legacy trainer instead decrements raw
opacities by 1.0: see `old_reset_opacity_not_fixed_value`. -/
theorem opacity_reset_schedule (cfg : TrainConfig) (iter : ℕ) (st : TrainerState) :
    (iter % (cfg.refine_every * cfg.reset_alpha_every) = 0 →
      (maybe_reset cfg iter st).splats.raw_opacity =
        List.replicate st.splats.raw_opacity.length (cfg.cull_alpha_thresh * 2) ∧
      (maybe_reset cfg iter st).splats.means = st.splats.means ∧
      (maybe_reset cfg iter st).splats.sh_coeffs = st.splats.sh_coeffs ∧
      (maybe_reset cfg iter st).splats.rotation = st.splats.rotation ∧
      (maybe_reset cfg iter st).splats.log_scales = st.splats.log_scales ∧
      (maybe_reset cfg iter st).grad_2d_accum = st.grad_2d_accum ∧
      (maybe_reset cfg iter st).xy_grad_counts = st.xy_grad_counts) ∧
    (iter % (cfg.refine_every * cfg.reset_alpha_every) ≠ 0 →
      maybe_reset cfg iter st = st) := by
  constructor
  · intro hmod
    unfold maybe_reset
    rw [if_pos hmod]
    refine ⟨?_, rfl, rfl, rfl, rfl, rfl, rfl⟩
    unfold reset_opacity
    simp
  · intro hmod
    unfold maybe_reset
    rw [if_neg hmod]

/-- C8 witness: with refine_every * reset_alpha_every = 1 the reset fires at
iteration 1 and overwrites the raw opacity; with the scenario configuration
(period 3000) iteration 1 leaves the state untouched. -/
theorem opacity_reset_schedule_witness :
    (1 % (cfgC1.refine_every * cfgC1.reset_alpha_every) = 0 ∧
      (maybe_reset cfgC1 1 stC1).splats.raw_opacity =
        List.replicate 1 (cfgC1.cull_alpha_thresh * 2)) ∧
    (1 % (cfgScen.refine_every * cfgScen.reset_alpha_every) ≠ 0 ∧
      maybe_reset cfgScen 1 stScen = stScen) :=
  ⟨⟨by decide, ((opacity_reset_schedule cfgC1 1 stC1).1 (by decide)).1⟩,
   ⟨by decide, (opacity_reset_schedule cfgScen 1 stScen).2 (by decide)⟩⟩

theorem prune_points_all_false (st : TrainerState) :
    prune_points st (List.replicate st.splats.num_splats false) = some st := by
  by_cases hn : st.splats.num_splats = 0
  · rw [hn]
    rfl
  · unfold prune_points
    dsimp only
    rw [if_neg (by simp [hn])]
    have hpad : padMask (List.replicate st.splats.num_splats false) st.splats.num_splats =
        List.replicate st.splats.num_splats false := by
      unfold padMask
      rw [if_neg (by simp)]
    rw [hpad]
    have hkr : keepInds (List.replicate st.splats.num_splats false) =
        List.range st.splats.num_splats := by
      unfold keepInds
      rw [List.map_replicate]
      simpa using maskInds_replicate_true st.splats.num_splats
    rw [hkr]
    rw [if_neg (by simp)]

theorem old_prune_points_all_false (ost : OldTrainerState) :
    old_prune_points ost (List.replicate ost.splats.num_splats false) = some ost := by
  unfold old_prune_points
  dsimp only
  have hkr : keepInds (List.replicate ost.splats.num_splats false) =
      List.range ost.splats.num_splats := by
    unfold keepInds
    rw [List.map_replicate]
    simpa using maskInds_replicate_true ost.splats.num_splats
  rw [hkr]
  rw [if_neg (by simp)]

theorem prune_points_none_keep {st : TrainerState} {m : List Bool}
    (h : prune_points st m = none) :
    (keepInds (padMask m st.splats.num_splats)).length = 0 := by
  unfold prune_points at h
  dsimp only at h
  split at h
  · exact absurd h (by simp)
  · split at h
    · split at h
      · next hz => exact hz
      · exact absurd h (by simp)
    · exact absurd h (by simp)

theorem getD_append_left {α : Type} (xs ys : List α) (i : ℕ) (d : α)
    (h : i < xs.length) : (xs ++ ys).getD i d = xs.getD i d := by
  rw [List.getD_eq_getElem?_getD, List.getD_eq_getElem?_getD, List.getElem?_append_left h]

theorem getD_append_shift {α : Type} (xs ys : List α) (i : ℕ) (d : α) :
    (xs ++ ys).getD (xs.length + i) d = ys.getD i d := by
  rw [List.getD_eq_getElem?_getD, List.getD_eq_getElem?_getD,
    List.getElem?_append_right (by omega)]
  congr 2
  omega

theorem zipWith_getD {α β γ : Type} (f : α → β → γ) (as : List α) (bs : List β)
    (i : ℕ) (da : α) (db : β) (dc : γ) (ha : i < as.length) (hb : i < bs.length) :
    (List.zipWith f as bs).getD i dc = f (as.getD i da) (bs.getD i db) := by
  induction as generalizing bs i with
  | nil => simp at ha
  | cons a as ih =>
    cases bs with
    | nil => simp at hb
    | cons b bs =>
      cases i with
      | zero => rfl
      | succ i =>
        show (List.zipWith f as bs).getD i dc = _
        exact ih bs i (by simpa using ha) (by simpa using hb)

theorem map_getD {α β : Type} (f : α → β) (as : List α) (i : ℕ) (da : α) (db : β)
    (ha : i < as.length) : (as.map f).getD i db = f (as.getD i da) := by
  induction as generalizing i with
  | nil => simp at ha
  | cons a as ih =>
    cases i with
    | zero => rfl
    | succ i =>
      show (as.map f).getD i db = _
      exact ih i (by simpa using ha)

/-- The rotated, extent-scaled sample offsets of a split
(crates/brush-train/src/train.rs:429-433). -/
def split_offsets (ops : NumOps) (s : Splats) (inds : List ℕ) (samples0 : List Vec3) : List Vec3 :=
  quaternion_rotation (selectL s.rotation inds)
    (List.zipWith vmul samples0 ((selectL s.log_scales inds).map (vexp ops)))

theorem split_step_pos_num {ops : NumOps} {st : TrainerState} {sm : List Bool}
    {samples0 : List Vec3} (hsu : st.splats.uniform)
    (hsm : sm.length ≤ st.splats.num_splats)
    (hk : 0 < (maskInds sm).length)
    (hs : (maskInds sm).length ≤ samples0.length) :
    (split_step ops st sm samples0).map (fun s => s.splats.num_splats) =
      some (st.splats.num_splats + (maskInds sm).length) := by
  cases hsp : split_step ops st sm samples0 with
  | none =>
    exfalso
    unfold split_step at hsp
    dsimp only at hsp
    rw [if_pos hk] at hsp
    have hkeep := prune_points_none_keep hsp
    have hb : ∀ i ∈ maskInds sm, i < st.splats.num_splats := by
      intro i hi
      have := maskInds_lt hi
      omega
    obtain ⟨hchu, hchn⟩ :=
      split_children_uniform ops st.splats (maskInds sm) samples0 hsu hb hs
    obtain ⟨hcat, hcatn⟩ := concat_splats_uniform hsu hchu
    rw [hchn] at hcatn
    have hsm2 : sm.length ≤ st.splats.num_splats + 2 * (maskInds sm).length := by omega
    rw [keepInds_padMask_count] at hkeep
    · have hmle := maskInds_length_le sm
      have hcatn' : (({ st with splats := (st.splats.concat_splats
          (split_children ops st.splats (maskInds sm) samples0).means
          (split_children ops st.splats (maskInds sm) samples0).rotation
          (split_children ops st.splats (maskInds sm) samples0).sh_coeffs
          (split_children ops st.splats (maskInds sm) samples0).raw_opacity
          (split_children ops st.splats (maskInds sm) samples0).log_scales) } :
          TrainerState)).splats.num_splats =
          st.splats.num_splats + 2 * (maskInds sm).length := hcatn
      rw [hcatn'] at hkeep
      omega
    · show sm.length ≤ (st.splats.concat_splats _ _ _ _ _).num_splats
      rw [hcatn]
      omega
  | some st' =>
    obtain ⟨_, hnum⟩ := split_step_some_splats hsu hsm hs hsp
    simp [hnum]

instance (s : Splats) : Decidable s.uniform := by
  unfold Splats.uniform
  infer_instance

instance (st : TrainerState) : Decidable st.uniform := by
  unfold TrainerState.uniform
  infer_instance

/-- C1 (amended): a prune keeps all seven arrays in lockstep, but clone and
split concatenation extend only the five Point-Set arrays (see
`clone_breaks_length_lockstep`); since every refinement cycle ends by
resetting the statistics wholesale to the new point count, every completed
refinement cycle returns a state whose five Point-Set arrays and both
statistics arrays again share one length. -/
theorem refinement_length_lockstep :
    (∀ (st st' : TrainerState) (m : List Bool), st.uniform →
      m.length ≤ st.splats.num_splats → prune_points st m = some st' →
      st'.uniform) ∧
    (∀ (ops : NumOps) (cfg : TrainConfig) (iter : ℕ) (st stR : TrainerState)
        (samples0 : List Vec3), st.uniform →
      st.splats.num_splats ≤ samples0.length →
      refine ops cfg iter st samples0 = some stR → stR.uniform) :=
  ⟨fun _ _ _ hu hm h => prune_points_some_uniform hu hm h,
   fun _ _ _ _ _ _ hu hs h => refine_some_uniform hu hs h⟩

/-- The state left after pruning point 0 from the four-point state `stC2`. -/
def stPr : TrainerState :=
  ⟨⟨List.replicate 3 v3zero, List.replicate 3 [0], List.replicate 3 idQuat,
    List.replicate 3 0, List.replicate 3 ⟨1, 1, 1⟩⟩,
   List.replicate 3 1, List.replicate 3 1⟩

/-- A one-point state on which the full refinement cycle is a no-op (opacity
high enough to survive, no gradient signal, fresh statistics). -/
def stQuiet : TrainerState := ⟨⟨[v3zero], [[0]], [idQuat], [1], [v3zero]⟩, [0], [0]⟩

/-- C1 witness: a concrete prune preserves the seven-array lockstep, and a
concrete full refinement cycle returns a lockstep state. -/
theorem refinement_length_lockstep_witness :
    (stC2.uniform ∧ prune_points stC2 [true, false, false, false] = some stPr ∧
      stPr.uniform) ∧
    (stQuiet.uniform ∧ refine idOps cfgScen 1 stQuiet [v3zero] = some stQuiet ∧
      stQuiet.uniform) :=
  ⟨⟨by decide, by decide,
    refinement_length_lockstep.1 stC2 stPr [true, false, false, false]
      (by decide) (by decide) (by decide)⟩,
   ⟨by decide, by decide,
    refinement_length_lockstep.2 idOps cfgScen 1 stQuiet stQuiet [v3zero]
      (by decide) (by decide) (by decide)⟩⟩

/-- C9: pruning with an all-false mask is a no-op in both trainers (the very
same state is returned, byte-for-byte), and for any full-length mask the
surviving rows of all five Point-Set arrays and both statistics arrays are
exactly the rows whose mask bit is false, in their original relative order. -/
theorem prune_no_op_and_order (st : TrainerState) (ost : OldTrainerState)
    (m : List Bool) (st' : TrainerState) :
    (prune_points st (List.replicate st.splats.num_splats false) = some st) ∧
    (old_prune_points ost (List.replicate ost.splats.num_splats false) = some ost) ∧
    (st.uniform → m.length = st.splats.num_splats → prune_points st m = some st' →
      st'.splats.means = keepRows st.splats.means m ∧
      st'.splats.sh_coeffs = keepRows st.splats.sh_coeffs m ∧
      st'.splats.rotation = keepRows st.splats.rotation m ∧
      st'.splats.raw_opacity = keepRows st.splats.raw_opacity m ∧
      st'.splats.log_scales = keepRows st.splats.log_scales m ∧
      st'.grad_2d_accum = keepRows st.grad_2d_accum m ∧
      st'.xy_grad_counts = keepRows st.xy_grad_counts m) := by
  refine ⟨prune_points_all_false st, old_prune_points_all_false ost, ?_⟩
  intro hu hm h
  have hm' : m.length = st.splats.means.length := hm
  have hpad : padMask m st.splats.num_splats = m := by
    unfold padMask
    rw [if_neg (by omega)]
  have he := prune_points_some_eq hu (Nat.le_of_eq hm) h
  obtain ⟨⟨hc, hr, ho, hl⟩, ha, hg⟩ := hu
  have ha' : st.grad_2d_accum.length = st.splats.means.length := ha
  have hg' : st.xy_grad_counts.length = st.splats.means.length := hg
  subst he
  refine ⟨?_, ?_, ?_, ?_, ?_, ?_, ?_⟩
  · show selectL st.splats.means (keepInds (padMask m st.splats.num_splats)) = _
    rw [hpad]
    exact selectL_keepInds_eq_keepRows _ m hm
  · show selectL st.splats.sh_coeffs (keepInds (padMask m st.splats.num_splats)) = _
    rw [hpad]
    exact selectL_keepInds_eq_keepRows _ m (by omega)
  · show selectL st.splats.rotation (keepInds (padMask m st.splats.num_splats)) = _
    rw [hpad]
    exact selectL_keepInds_eq_keepRows _ m (by omega)
  · show selectL st.splats.raw_opacity (keepInds (padMask m st.splats.num_splats)) = _
    rw [hpad]
    exact selectL_keepInds_eq_keepRows _ m (by omega)
  · show selectL st.splats.log_scales (keepInds (padMask m st.splats.num_splats)) = _
    rw [hpad]
    exact selectL_keepInds_eq_keepRows _ m (by omega)
  · show selectL st.grad_2d_accum (keepInds (padMask m st.splats.num_splats)) = _
    rw [hpad]
    exact selectL_keepInds_eq_keepRows _ m (by omega)
  · show selectL st.xy_grad_counts (keepInds (padMask m st.splats.num_splats)) = _
    rw [hpad]
    exact selectL_keepInds_eq_keepRows _ m (by omega)

/-- C9 witness: the no-op holds on concrete states and the survivors of a
concrete full-length prune are the complementary rows in order. -/
theorem prune_no_op_and_order_witness :
    stC2.uniform ∧ prune_points stC2 [true, false, false, false] = some stPr ∧
      stPr.splats.raw_opacity = keepRows stC2.splats.raw_opacity
        [true, false, false, false] :=
  ⟨by decide, by decide,
   ((prune_no_op_and_order stC2 oldStC7 [true, false, false, false] stPr).2.2
     (by decide) (by decide) (by decide)).2.2.2.1⟩

/-- C10: `prune_points` accepts a mask shorter than the point count: a
zero-length mask returns immediately with the state unchanged; a mask of
length k < N behaves exactly as if padded with false entries to length N; and
in the result the first k rows are filtered by the mask while every row from
index k on is kept (shown on the means array). -/
theorem prune_short_mask (st st' : TrainerState) (m : List Bool) :
    (prune_points st [] = some st) ∧
    (m.length < st.splats.num_splats →
      prune_points st m =
        prune_points st (m ++ List.replicate (st.splats.num_splats - m.length) false)) ∧
    (st.uniform → m.length < st.splats.num_splats → prune_points st m = some st' →
      st'.splats.means =
        keepRows (st.splats.means.take m.length) m ++ st.splats.means.drop m.length) := by
  refine ⟨rfl, ?_, ?_⟩
  · intro hlt
    by_cases h0 : m.length = 0
    · have hm0 : m = [] := List.length_eq_zero.mp h0
      subst hm0
      have hfull : st.splats.num_splats - ([] : List Bool).length = st.splats.num_splats := by
        simp
      rw [hfull]
      rw [show prune_points st [] = some st from rfl]
      rw [show ([] : List Bool) ++ List.replicate st.splats.num_splats false =
        List.replicate st.splats.num_splats false from by simp]
      exact (prune_points_all_false st).symm
    · have hpads : padMask m st.splats.num_splats =
          m ++ List.replicate (st.splats.num_splats - m.length) false := by
        unfold padMask
        rw [if_pos hlt]
      have hpad2 : padMask (m ++ List.replicate (st.splats.num_splats - m.length) false)
          st.splats.num_splats =
          m ++ List.replicate (st.splats.num_splats - m.length) false := by
        unfold padMask
        rw [if_neg (by simp; omega)]
      have hc2 : ¬ (m ++ List.replicate (st.splats.num_splats - m.length) false).length = 0 := by
        simp
        omega
      unfold prune_points
      dsimp only
      rw [hpads, hpad2, if_neg h0, if_neg hc2]
  · intro hu hlt h
    have hm' : m.length ≤ st.splats.means.length := Nat.le_of_lt hlt
    have he := prune_points_some_eq hu (Nat.le_of_lt hlt) h
    subst he
    show selectL st.splats.means (keepInds (padMask m st.splats.num_splats)) = _
    have hpads : padMask m st.splats.num_splats =
        m ++ List.replicate (st.splats.num_splats - m.length) false := by
      unfold padMask
      rw [if_pos hlt]
    rw [hpads, keepInds_append_replicate_false, selectL_inds_append]
    have htd : st.splats.means = st.splats.means.take m.length ++
        st.splats.means.drop m.length := (List.take_append_drop _ _).symm
    have htlen : (st.splats.means.take m.length).length = m.length := by
      rw [List.length_take]
      omega
    congr 1
    · -- the first k rows are re-selected by the complement of the mask
      have hb : ∀ i ∈ keepInds m, i < (st.splats.means.take m.length).length := by
        intro i hi
        rw [htlen]
        exact keepInds_lt hi
      conv in selectL st.splats.means (keepInds m) => rw [htd]
      rw [selectL_append_of_lt _ _ _ hb,
        selectL_keepInds_eq_keepRows _ m htlen.symm]
    · -- the rows from k on are selected wholesale, in order
      have hdlen : (st.splats.means.drop m.length).length =
          st.splats.num_splats - m.length := by
        rw [List.length_drop]
        rfl
      conv in selectL st.splats.means _ => rw [htd]
      rw [show (List.range (st.splats.num_splats - m.length)).map (fun i => i + m.length) =
        (List.range ((st.splats.means.drop m.length).length)).map
          (fun i => i + (st.splats.means.take m.length).length) from by rw [hdlen, htlen]]
      exact selectL_shift_self _ _

/-- C10 witness: a length-1 mask on a 4-point state behaves as its padded
version and keeps every row past index 0. -/
theorem prune_short_mask_witness :
    stC2.uniform ∧ ([true] : List Bool).length < stC2.splats.num_splats ∧
    prune_points stC2 [true] =
      prune_points stC2 ([true] ++ List.replicate (stC2.splats.num_splats - 1) false) ∧
    prune_points stC2 [true] = some stPr ∧
    stPr.splats.means =
      keepRows (stC2.splats.means.take 1) [true] ++ stC2.splats.means.drop 1 :=
  ⟨by decide, by decide,
   (prune_short_mask stC2 stPr [true]).2.1 (by decide),
   by decide,
   (prune_short_mask stC2 stPr [true]).2.2 (by decide) (by decide) (by decide)⟩

/-- C6: row i is a clone candidate exactly when exp of its maximum log-scale
axis is strictly below densify_size_thresh AND its average gradient
(grad_accum / max(count, 1)) is at least densify_grad_thresh; the clone step
appends the selected rows verbatim to each Point-Set array, so every
pre-clone row is unchanged at its original index and the appended rows are
exact duplicates. -/
theorem clone_condition_and_duplication (ops : NumOps) (cfg : TrainConfig)
    (st : TrainerState) (hu : st.uniform) :
    (∀ i, i < st.splats.num_splats →
      (i ∈ maskInds (cloneMask ops cfg st) ↔
        maxScale ops (st.splats.log_scales.getD i v3zero) < cfg.densify_size_thresh ∧
        cfg.densify_grad_thresh ≤ (avgGrads st).getD i 0)) ∧
    (clone_step ops cfg st).splats.means =
      st.splats.means ++ selectL st.splats.means (maskInds (cloneMask ops cfg st)) ∧
    (clone_step ops cfg st).splats.sh_coeffs =
      st.splats.sh_coeffs ++ selectL st.splats.sh_coeffs (maskInds (cloneMask ops cfg st)) ∧
    (clone_step ops cfg st).splats.rotation =
      st.splats.rotation ++ selectL st.splats.rotation (maskInds (cloneMask ops cfg st)) ∧
    (clone_step ops cfg st).splats.raw_opacity =
      st.splats.raw_opacity ++ selectL st.splats.raw_opacity (maskInds (cloneMask ops cfg st)) ∧
    (clone_step ops cfg st).splats.log_scales =
      st.splats.log_scales ++ selectL st.splats.log_scales (maskInds (cloneMask ops cfg st)) ∧
    (clone_step ops cfg st).grad_2d_accum = st.grad_2d_accum ∧
    (clone_step ops cfg st).xy_grad_counts = st.xy_grad_counts := by
  obtain ⟨⟨hc, hr, ho, hl⟩, ha, hg⟩ := hu
  have ha' : st.grad_2d_accum.length = st.splats.means.length := ha
  have hg' : st.xy_grad_counts.length = st.splats.means.length := hg
  have havg : (avgGrads st).length = st.splats.means.length := by
    simp [avgGrads, List.length_zipWith]
    omega
  obtain ⟨hcs, hca, hcg⟩ := clone_step_splats ops cfg st
  refine ⟨?_, ?_, ?_, ?_, ?_, ?_, hca, hcg⟩
  · intro i hi
    have hi' : i < st.splats.means.length := hi
    rw [mem_maskInds]
    unfold cloneMask
    rw [zipWith_getD _ _ _ i false false false ?_ ?_]
    · unfold sizeSmallMask bigGradMask
      rw [map_getD _ _ i v3zero false (by omega), map_getD _ _ i (0 : ℚ) false (by omega)]
      simp
    · simp [sizeSmallMask]
      omega
    · simp [bigGradMask]
      omega
  · rw [hcs]; rfl
  · rw [hcs]; rfl
  · rw [hcs]; rfl
  · rw [hcs]; rfl
  · rw [hcs]; rfl

/-- C6 witness: on the one-point state `stC1` the clone condition holds at
index 0 and the clone appends an exact duplicate row. -/
theorem clone_condition_and_duplication_witness :
    stC1.uniform ∧
    (0 ∈ maskInds (cloneMask idOps cfgC1 stC1) ↔
      maxScale idOps (stC1.splats.log_scales.getD 0 v3zero) < cfgC1.densify_size_thresh ∧
      cfgC1.densify_grad_thresh ≤ (avgGrads stC1).getD 0 0) ∧
    (clone_step idOps cfgC1 stC1).splats.means =
      stC1.splats.means ++ selectL stC1.splats.means (maskInds (cloneMask idOps cfgC1 stC1)) :=
  ⟨by decide,
   (clone_condition_and_duplication idOps cfgC1 stC1 (by decide)).1 0 (by decide),
   (clone_condition_and_duplication idOps cfgC1 stC1 (by decide)).2.1⟩

/-- C2 (amended, brush-train trainer): when the split phase runs (k ≥ 1 split
rows), it equals "concatenate the 2k children, then prune the parents"; the
intermediate Point Set holds n + 2k > 0 points and the completed split holds
n + k > 0 points, so the set is never transiently empty.  The legacy trainer
prunes the parents before concatenating the children and so aborts fatally
when every point splits: see `old_split_prunes_before_concat`. -/
theorem split_concat_before_prune (ops : NumOps) (st : TrainerState) (sm : List Bool)
    (samples0 : List Vec3) (hsu : st.splats.uniform)
    (hsm : sm.length = st.splats.num_splats)
    (hk : 0 < (maskInds sm).length)
    (hs : (maskInds sm).length ≤ samples0.length) :
    (split_step ops st sm samples0 =
      prune_points { st with splats := (st.splats.concat_splats
        (split_children ops st.splats (maskInds sm) samples0).means
        (split_children ops st.splats (maskInds sm) samples0).rotation
        (split_children ops st.splats (maskInds sm) samples0).sh_coeffs
        (split_children ops st.splats (maskInds sm) samples0).raw_opacity
        (split_children ops st.splats (maskInds sm) samples0).log_scales) } sm) ∧
    (st.splats.concat_splats
        (split_children ops st.splats (maskInds sm) samples0).means
        (split_children ops st.splats (maskInds sm) samples0).rotation
        (split_children ops st.splats (maskInds sm) samples0).sh_coeffs
        (split_children ops st.splats (maskInds sm) samples0).raw_opacity
        (split_children ops st.splats (maskInds sm) samples0).log_scales).num_splats =
      st.splats.num_splats + 2 * (maskInds sm).length ∧
    0 < st.splats.num_splats + 2 * (maskInds sm).length ∧
    (split_step ops st sm samples0).map (fun s => s.splats.num_splats) =
      some (st.splats.num_splats + (maskInds sm).length) ∧
    0 < st.splats.num_splats + (maskInds sm).length := by
  have hb : ∀ i ∈ maskInds sm, i < st.splats.num_splats := by
    intro i hi
    have := maskInds_lt hi
    omega
  obtain ⟨hchu, hchn⟩ :=
    split_children_uniform ops st.splats (maskInds sm) samples0 hsu hb hs
  obtain ⟨hcat, hcatn⟩ := concat_splats_uniform hsu hchu
  rw [hchn] at hcatn
  refine ⟨?_, hcatn, by omega, ?_, by omega⟩
  · unfold split_step
    dsimp only
    rw [if_pos hk]
  · exact split_step_pos_num hsu (Nat.le_of_eq hsm) hk hs

/-- C2 witness: splitting all four points of a concrete state goes through
the concatenated intermediate and completes with 8 points. -/
theorem split_concat_before_prune_witness :
    stC2.splats.uniform ∧
    ([true, true, true, true] : List Bool).length = stC2.splats.num_splats ∧
    0 < (maskInds [true, true, true, true]).length ∧
    (split_step idOps stC2 [true, true, true, true] (List.replicate 4 v3zero)).map
      (fun s => s.splats.num_splats) = some 8 := by
  refine ⟨by decide, by decide, by decide, ?_⟩
  have hh := split_concat_before_prune idOps stC2 [true, true, true, true]
    (List.replicate 4 v3zero) (by decide) (by decide) (by decide) (by decide)
  have h4 := hh.2.2.2.1
  have he : stC2.splats.num_splats + (maskInds [true, true, true, true]).length = 8 := by
    decide
  rw [he] at h4
  exact h4

/-- C5 (amended, brush-train trainer): a split of k parents appends exactly
2k children; for j < k, child j sits at parent j's center PLUS the j-th
offset and child k + j at the same center MINUS that same offset, the offset
being the j-th sample scaled componentwise by the parent's world-space extent
and rotated by the parent's orientation; rotation, color coefficients and raw
opacity are inherited unchanged (the selected rows tiled twice); the
children's world-space scale is the parent's divided by 1.6; and the split
completes with a net point count of n + k (parents pruned in the same cycle).
In the legacy trainer the two children of one parent instead receive two
independent offsets: see `old_split_children_not_mirrored`. -/
theorem split_children_characterization (ops : NumOps) (st : TrainerState)
    (sm : List Bool) (samples0 : List Vec3) (hsu : st.splats.uniform)
    (hsm : sm.length = st.splats.num_splats)
    (hk : 0 < (maskInds sm).length)
    (hs : samples0.length = (maskInds sm).length)
    (hx : ∀ q : ℚ, ops.exp (ops.log q) = q) :
    (split_children ops st.splats (maskInds sm) samples0).means.length =
      2 * (maskInds sm).length ∧
    (∀ j, j < (maskInds sm).length →
      (split_children ops st.splats (maskInds sm) samples0).means.getD j v3zero =
        vadd ((selectL st.splats.means (maskInds sm)).getD j v3zero)
          ((split_offsets ops st.splats (maskInds sm) samples0).getD j v3zero) ∧
      (split_children ops st.splats (maskInds sm) samples0).means.getD
          ((maskInds sm).length + j) v3zero =
        vsub ((selectL st.splats.means (maskInds sm)).getD j v3zero)
          ((split_offsets ops st.splats (maskInds sm) samples0).getD j v3zero)) ∧
    (split_children ops st.splats (maskInds sm) samples0).rotation =
      selectL st.splats.rotation (maskInds sm) ++
        selectL st.splats.rotation (maskInds sm) ∧
    (split_children ops st.splats (maskInds sm) samples0).sh_coeffs =
      selectL st.splats.sh_coeffs (maskInds sm) ++
        selectL st.splats.sh_coeffs (maskInds sm) ∧
    (split_children ops st.splats (maskInds sm) samples0).raw_opacity =
      selectL st.splats.raw_opacity (maskInds sm) ++
        selectL st.splats.raw_opacity (maskInds sm) ∧
    (split_children ops st.splats (maskInds sm) samples0).log_scales.map (vexp ops) =
      ((selectL st.splats.log_scales (maskInds sm)).map (vexp ops)).map
        (fun v => vdiv v (8 / 5)) ++
      ((selectL st.splats.log_scales (maskInds sm)).map (vexp ops)).map
        (fun v => vdiv v (8 / 5)) ∧
    (split_step ops st sm samples0).map (fun s => s.splats.num_splats) =
      some (st.splats.num_splats + (maskInds sm).length) := by
  obtain ⟨hc, hr, ho, hl⟩ := hsu
  have hb : ∀ i ∈ maskInds sm, i < st.splats.num_splats := by
    intro i hi
    have := maskInds_lt hi
    omega
  have hP : (selectL st.splats.means (maskInds sm)).length = (maskInds sm).length :=
    selectL_length _ _ (fun i hi => hb i hi)
  have hR : (selectL st.splats.rotation (maskInds sm)).length = (maskInds sm).length :=
    selectL_length _ _ (fun i hi => by rw [hr]; exact hb i hi)
  have hLs : (selectL st.splats.log_scales (maskInds sm)).length = (maskInds sm).length :=
    selectL_length _ _ (fun i hi => by rw [hl]; exact hb i hi)
  have hS : ((selectL st.splats.log_scales (maskInds sm)).map (vexp ops)).length =
      (maskInds sm).length := by
    rw [List.length_map, hLs]
  have hO : (split_offsets ops st.splats (maskInds sm) samples0).length =
      (maskInds sm).length := by
    unfold split_offsets quaternion_rotation
    simp [List.length_zipWith, hR, hS, hs]
  have hA : (List.zipWith vadd (selectL st.splats.means (maskInds sm))
      (split_offsets ops st.splats (maskInds sm) samples0)).length =
      (maskInds sm).length := by
    rw [List.length_zipWith, hP, hO]
    omega
  have hmeans : (split_children ops st.splats (maskInds sm) samples0).means =
      List.zipWith vadd (selectL st.splats.means (maskInds sm))
        (split_offsets ops st.splats (maskInds sm) samples0) ++
      List.zipWith vsub (selectL st.splats.means (maskInds sm))
        (split_offsets ops st.splats (maskInds sm) samples0) := rfl
  refine ⟨?_, ?_, rfl, rfl, rfl, ?_, ?_⟩
  · rw [hmeans]
    simp only [List.length_append, List.length_zipWith, hP, hO]
    omega
  · intro j hj
    constructor
    · rw [hmeans, getD_append_left _ _ j v3zero (by omega)]
      exact zipWith_getD vadd _ _ j v3zero v3zero v3zero (by omega) (by omega)
    · rw [hmeans, show (maskInds sm).length + j =
        (List.zipWith vadd (selectL st.splats.means (maskInds sm))
          (split_offsets ops st.splats (maskInds sm) samples0)).length + j from by
          rw [hA]]
      rw [getD_append_shift]
      exact zipWith_getD vsub _ _ j v3zero v3zero v3zero (by omega) (by omega)
  · show (((selectL st.splats.log_scales (maskInds sm)).map (vexp ops)).map
        (fun v => vlog ops (vdiv v (8 / 5))) ++
      ((selectL st.splats.log_scales (maskInds sm)).map (vexp ops)).map
        (fun v => vlog ops (vdiv v (8 / 5)))).map (vexp ops) = _
    have hvl : ∀ v : Vec3, vexp ops (vlog ops v) = v := by
      intro v
      simp [vexp, vlog, hx]
    have hmapl : ∀ l : List Vec3,
        (l.map (fun v => vlog ops (vdiv v (8 / 5)))).map (vexp ops) =
          l.map (fun v => vdiv v (8 / 5)) := by
      intro l
      rw [List.map_map]
      congr 1
      funext v
      show vexp ops (vlog ops (vdiv v (8 / 5))) = vdiv v (8 / 5)
      exact hvl _
    rw [List.map_append, hmapl]
  · exact split_step_pos_num ⟨hc, hr, ho, hl⟩ (Nat.le_of_eq hsm) hk (Nat.le_of_eq hs.symm)

/-- C5 witness: the characterization applied to the all-split four-point
state: 8 children and a completed count of 8. -/
theorem split_children_characterization_witness :
    stC2.splats.uniform ∧ 0 < (maskInds [true, true, true, true]).length ∧
    (split_children idOps stC2.splats (maskInds [true, true, true, true])
      (List.replicate 4 v3zero)).means.length =
      2 * (maskInds [true, true, true, true]).length :=
  ⟨by decide, by decide,
   (split_children_characterization idOps stC2 [true, true, true, true]
     (List.replicate 4 v3zero) (by decide) (by decide) (by decide) (by decide)
     (fun q => rfl)).1⟩
